import Mathlib

/-!
Verification development for the tracepack contextual logger
(src/logger.js of purpleowl-io/tracepack).

The file shallowly embeds the data model and the emission pipeline of the
logger. JavaScript objects are modelled as association lists of fields whose
values are JSON-like values; object identity (needed for shared and cyclic
references) is modelled by a heap of objects addressed by natural numbers,
with `JVal.ref` pointing into the heap. BigInt values, which
JSON.stringify cannot serialize, are modelled by `JVal.jbig`.

The repository file src/logger.js contains two complete variants of the
logger. The first variant has the hardened pipeline: `safeStringify` with a
WeakSet-based cycle marker, a reserved-field filter on custom context, and
a try/catch fallback around serialization. The second variant merges
custom context with Object.assign and serializes with a bare
JSON.stringify. Both are embedded here: `emit`, `applyCustom`, `Config`
model the first variant; `emitV2`, `applyCustomV2`, `ConfigV2` the second.

Recursive serializers carry a fuel argument so that they are structurally
recursive; the development proves that the fuel chosen by `safeStringify`
(heap size plus one) is always sufficient, so fuel exhaustion never occurs
and `none` faithfully models a thrown serialization error.
-/

namespace Tracepack

/-- JSON-like runtime values. `jbig` models a BigInt, which JSON.stringify
refuses to serialize; `ref a` is a reference to the heap object at address
`a`, so shared and cyclic object graphs are representable. -/
inductive JVal where
  | jnull : JVal
  | jbool (b : Bool) : JVal
  | jnum (n : Int) : JVal
  | jstr (s : String) : JVal
  | jbig (n : Int) : JVal
  | ref (a : Nat) : JVal
deriving DecidableEq, Repr

/-- Whether a value is a BigInt (the unsupported value kind of the model). -/
def JVal.isBig : JVal → Bool
  | .jbig _ => true
  | _ => false

/-- A heap of JavaScript objects; the object at address `a` is the ordered
field list `objs.getD a []`. -/
structure Heap where
  objs : List (List (String × JVal))
deriving DecidableEq, Repr

/-- Field list of the object at address `a` (an address outside the heap
behaves as an empty object; well-formed inputs do not use such refs). -/
def Heap.fields (h : Heap) (a : Nat) : List (String × JVal) := h.objs.getD a []

/-- Escape of one character inside a JSON string literal. -/
def escapeChar (c : Char) : String :=
  if c = '\"' then "\\\"" else if c = '\\' then "\\\\"
  else if c = '\n' then "\\n" else String.singleton c

/-- Escape of the body of a JSON string literal. -/
def escapeJson (s : String) : String := String.join (s.data.map escapeChar)

/-- A JSON string literal: quotes around the escaped body. -/
def jquote (s : String) : String := "\"" ++ escapeJson s ++ "\""

/-- Wrap serialized fields as a JSON object literal. -/
def braceJoin (parts : List String) : String :=
  "\x7b" ++ String.intercalate "," parts ++ "\x7d"

/-- Serialize the fields of one object, given a serializer `f` for the
values. The visited set `seen` is threaded left to right through the
fields, exactly as the single WeakSet of `safeStringify` in src/logger.js
persists across the whole traversal. The Bool records whether any
already-seen object was replaced by the cycle marker. -/
def serFieldsWith (f : List Nat → JVal → Option (String × List Nat × Bool)) :
    List Nat → List (String × JVal) → Option (List String × List Nat × Bool)
  | seen, [] => some ([], seen, false)
  | seen, (k, v) :: rest =>
    match f seen v with
    | none => none
    | some (sv, seen1, hit1) =>
      match serFieldsWith f seen1 rest with
      | none => none
      | some (parts, seen2, hit2) =>
        some ((jquote k ++ ":" ++ sv) :: parts, seen2, hit1 || hit2)

/-- The recursive core of `safeStringify` from src/logger.js (first
variant): JSON.stringify with a replacer that keeps a persistent WeakSet of
every object seen so far and returns the string literal [Circular] for any
object already in the set. `none` models a thrown error: it arises only
for a BigInt value, or on fuel exhaustion, which `serValSafe_total` below
proves impossible for the fuel used by `safeStringify`. -/
def serValSafe (h : Heap) : Nat → List Nat → JVal → Option (String × List Nat × Bool)
  | 0, _, _ => none
  | fuel + 1, seen, v =>
    match v with
    | .jnull => some ("null", seen, false)
    | .jbool b => some ((if b then "true" else "false"), seen, false)
    | .jnum n => some (toString n, seen, false)
    | .jstr s => some (jquote s, seen, false)
    | .jbig _ => none
    | .ref a =>
      if a ∈ seen then some (jquote "[Circular]", seen, true)
      else
        match serFieldsWith (serValSafe h fuel) (a :: seen) (h.fields a) with
        | none => none
        | some (parts, seen2, hit) => some (braceJoin parts, seen2, hit)

/-- Serialize the fields of one object for the plain JSON.stringify model:
the ancestor path is passed unchanged to every field. -/
def serFieldsPlainWith (f : JVal → Option String) :
    List (String × JVal) → Option (List String)
  | [] => some []
  | (k, v) :: rest =>
    match f v with
    | none => none
    | some sv =>
      match serFieldsPlainWith f rest with
      | none => none
      | some parts => some ((jquote k ++ ":" ++ sv) :: parts)

/-- The recursive core of a bare JSON.stringify (used by the second
variant of the logger and by the fallback path of the first): it tracks
only the ancestors on the current path and throws (`none`) when it meets
an object already on that path, so shared acyclic references serialize
fine (duplicated) but any cycle is an error; a BigInt is an error too. -/
def serValPlain (h : Heap) : Nat → List Nat → JVal → Option String
  | 0, _, _ => none
  | fuel + 1, path, v =>
    match v with
    | .jnull => some "null"
    | .jbool b => some (if b then "true" else "false")
    | .jnum n => some (toString n)
    | .jstr s => some (jquote s)
    | .jbig _ => none
    | .ref a =>
      if a ∈ path then none
      else
        match serFieldsPlainWith (serValPlain h fuel (a :: path)) (h.fields a) with
        | none => none
        | some parts => some (braceJoin parts)

/-- safeStringify of src/logger.js applied to a top-level object with
field list `flds` (the log entry; the entry itself has no address, and
nothing references it, so adding it to the WeakSet is irrelevant). The
Bool reports whether the cycle marker was emitted somewhere. -/
def safeStringify (h : Heap) (flds : List (String × JVal)) : Option (String × Bool) :=
  match serFieldsWith (serValSafe h (h.objs.length + 1)) [] flds with
  | none => none
  | some (parts, _, hit) => some (braceJoin parts, hit)

/-- A bare JSON.stringify applied to a top-level object with field list
`flds`, as used by the second variant and by the fallback of the first. -/
def jsonStringify (h : Heap) (flds : List (String × JVal)) : Option String :=
  match serFieldsPlainWith (serValPlain h (h.objs.length + 1) []) flds with
  | none => none
  | some parts => some (braceJoin parts)

/-- The four call levels of the logger (the configuration additionally
knows the level string none). -/
inductive Level where
  | debug | info | warn | error
deriving DecidableEq, Repr

/-- Numeric rank of a call level, matching LOG_LEVELS in src/logger.js. -/
def Level.rank : Level → Nat
  | .debug => 0
  | .info => 1
  | .warn => 2
  | .error => 3

/-- The wire name of a call level. -/
def Level.name : Level → String
  | .debug => "debug"
  | .info => "info"
  | .warn => "warn"
  | .error => "error"

/-- LOG_LEVELS of src/logger.js as a partial map from level strings. -/
def LOG_LEVELS (s : String) : Option Nat :=
  if s = "debug" then some 0
  else if s = "info" then some 1
  else if s = "warn" then some 2
  else if s = "error" then some 3
  else if s = "none" then some 4
  else none

/-- RESERVED_FIELDS of src/logger.js (first variant): the event fields
that custom context must not overwrite. -/
def RESERVED_FIELDS : List String := ["ts", "level", "msg", "userId", "txId"]

/-- The context record held by AsyncLocalStorage. In the source, userId
and txId are normalized with a nullish default at every construction site,
so absence is represented by `JVal.jnull` here. -/
structure Store where
  userId : JVal
  txId : JVal
  custom : List (String × JVal)
deriving DecidableEq, Repr

/-- The empty context used by emit when no store is active: models
asyncContext.getStore() being undefined, after which every field access
falls back to its nullish default. -/
def emptyCtx : Store := { userId := .jnull, txId := .jnull, custom := [] }

/-- JavaScript property assignment on an object represented as an ordered
field list: an existing key keeps its position and gets the new value, a
new key is appended. -/
def objInsert : List (String × JVal) → String → JVal → List (String × JVal)
  | [], k, v => [(k, v)]
  | p :: rest, k, v =>
    if p.1 = k then (k, v) :: rest else p :: objInsert rest k v

/-- Object spread: assign every field of `data` into `init` in order. -/
def objSpread (init : List (String × JVal)) (data : List (String × JVal)) :
    List (String × JVal) :=
  data.foldl (fun acc kv => objInsert acc kv.1 kv.2) init

/-- Property read on an object represented as an ordered field list. -/
def lookupField (flds : List (String × JVal)) (k : String) : Option JVal :=
  (flds.find? (fun p => p.1 == k)).map (fun p => p.2)

/-- The last value `data` assigns to key `k` (spread semantics: the last
write wins). -/
def dataLast (k : String) : List (String × JVal) → Option JVal
  | [] => none
  | (k0, v0) :: rest =>
    match dataLast k rest with
    | some v => some v
    | none => if k0 = k then some v0 else none

/-- The draft entry object built by emit in both variants of
src/logger.js: fixed fields ts, level, userId, txId, then the spread of
the caller data, then msg assigned last. -/
def entryFields (ctx : Store) (ts : String) (lvl : Level) (message : String)
    (data : List (String × JVal)) : List (String × JVal) :=
  objInsert
    (objSpread
      [("ts", .jstr ts), ("level", .jstr lvl.name),
       ("userId", ctx.userId), ("txId", ctx.txId)]
      data)
    "msg" (.jstr message)

/-- Custom-context merge of the first variant: every custom field whose
key is reserved is dropped; the rest are assigned into the entry. -/
def applyCustom (entry : List (String × JVal)) (custom : List (String × JVal)) :
    List (String × JVal) :=
  custom.foldl
    (fun acc kv => if kv.1 ∈ RESERVED_FIELDS then acc else objInsert acc kv.1 kv.2)
    entry

/-- Custom-context merge of the second variant: Object.assign entry with
all custom fields, with no reserved-field filter. -/
def applyCustomV2 (entry : List (String × JVal)) (custom : List (String × JVal)) :
    List (String × JVal) :=
  custom.foldl (fun acc kv => objInsert acc kv.1 kv.2) entry

/-- The complete event object assembled by emit of the first variant. -/
def emittedEntry (ctx : Store) (ts : String) (lvl : Level) (message : String)
    (data : List (String × JVal)) : List (String × JVal) :=
  applyCustom (entryFields ctx ts lvl message data) ctx.custom

/-- The complete event object assembled by emit of the second variant. -/
def emittedEntryV2 (ctx : Store) (ts : String) (lvl : Level) (message : String)
    (data : List (String × JVal)) : List (String × JVal) :=
  applyCustomV2 (entryFields ctx ts lvl message data) ctx.custom

/-- Runtime configuration of the first variant (module globals set by
replaceConsole): minimum level rank, output mode string, and whether a
log file stream was created. -/
structure Config where
  currentLevel : Nat
  outputMode : String
  logFileStream : Bool
deriving DecidableEq, Repr

/-- Runtime configuration of the second variant: a resolved file path
instead of a stream handle. -/
structure ConfigV2 where
  currentLevel : Nat
  outputMode : String
  logFilePath : Option String
deriving DecidableEq, Repr

/-- The output destinations: the log file, and the three captured
original console methods. -/
inductive Sink where
  | file | cLog | cWarn | cError
deriving DecidableEq, Repr

/-- The console method chosen for a level: error to the original
console.error, warn to console.warn, everything else to console.log. -/
def consoleSink (lvl : Level) : Sink :=
  if lvl = Level.error then Sink.cError
  else if lvl = Level.warn then Sink.cWarn
  else Sink.cLog

/-- Sink dispatch of the first variant: append to the file stream when it
exists and the mode selects file output (with a newline, as the stream
write adds one explicitly), then write to the original console when the
mode selects console output. -/
def dispatch (cfg : Config) (lvl : Level) (output : String) : List (Sink × String) :=
  (if cfg.logFileStream ∧ (cfg.outputMode = "file" ∨ cfg.outputMode = "both")
   then [(Sink.file, output ++ "\n")] else [])
  ++ (if cfg.outputMode = "console" ∨ cfg.outputMode = "both"
      then [(consoleSink lvl, output)] else [])

/-- Sink dispatch of the second variant (appendFileSync to the configured
path instead of a stream write). -/
def dispatchV2 (cfg : ConfigV2) (lvl : Level) (output : String) : List (Sink × String) :=
  (if cfg.logFilePath.isSome ∧ (cfg.outputMode = "file" ∨ cfg.outputMode = "both")
   then [(Sink.file, output ++ "\n")] else [])
  ++ (if cfg.outputMode = "console" ∨ cfg.outputMode = "both"
      then [(consoleSink lvl, output)] else [])

/-- The fallback object built in the catch block of emit (first variant).
Note that its ts field is `entry.ts`, the possibly data-overridden value
of the failed entry, not a fresh primitive. -/
def fallbackFields (tsv : JVal) (message : String) : List (String × JVal) :=
  [("ts", tsv), ("level", .jstr "error"),
   ("msg", .jstr "Failed to serialize log entry"),
   ("originalMsg", .jstr message)]

/-- emit of the first variant of src/logger.js. The result is
`Except.error ()` when an exception escapes emit, `Except.ok none` when
the level gate suppresses the call, and `Except.ok (some (output, writes))`
when a single serialized event line `output` is produced and dispatched.
The timestamp is an input (the effect of new Date().toISOString()), as is
the heap holding the caller object graph. The only possible escape is the
catch block itself throwing, namely when JSON.stringify of the fallback
object fails because `entry.ts` is unserializable. -/
def emit (cfg : Config) (ctxOpt : Option Store) (h : Heap) (ts : String)
    (lvl : Level) (message : String) (data : List (String × JVal)) :
    Except Unit (Option (String × List (Sink × String))) :=
  if lvl.rank < cfg.currentLevel then Except.ok none
  else
    let ctx := ctxOpt.getD emptyCtx
    let entry := emittedEntry ctx ts lvl message data
    match safeStringify h entry with
    | some (output, _) => Except.ok (some (output, dispatch cfg lvl output))
    | none =>
      match jsonStringify h
          (fallbackFields ((lookupField entry "ts").getD JVal.jnull) message) with
      | some output => Except.ok (some (output, dispatch cfg lvl output))
      | none => Except.error ()

/-- emit of the second variant of src/logger.js: custom fields merged by
Object.assign with no reserved filter, serialization by bare
JSON.stringify with no try/catch, so any serialization failure escapes to
the caller. -/
def emitV2 (cfg : ConfigV2) (ctxOpt : Option Store) (h : Heap) (ts : String)
    (lvl : Level) (message : String) (data : List (String × JVal)) :
    Except Unit (Option (String × List (Sink × String))) :=
  if lvl.rank < cfg.currentLevel then Except.ok none
  else
    let ctx := ctxOpt.getD emptyCtx
    let entry := emittedEntryV2 ctx ts lvl message data
    match jsonStringify h entry with
    | some output => Except.ok (some (output, dispatchV2 cfg lvl output))
    | none => Except.error ()

/-- The options object accepted by replaceConsole; every field optional. -/
structure InitOptions where
  level : Option String
  output : Option String
  filePath : Option String
deriving DecidableEq, Repr

/-- Path resolution is a file-system concern outside the core; modelled as
the identity on the path string. -/
def resolvePath (s : String) : String := s

/-- replaceConsole of the first variant: sets the level rank (unknown
level strings fall back to info), the output mode, and creates the file
stream only when a filePath was supplied and the mode selects file
output. Note that it returns normally in every case: a missing filePath
with file output selected is not detected. -/
def replaceConsole (opts : InitOptions) : Config :=
  let level := opts.level.getD "info"
  let output := opts.output.getD "console"
  { currentLevel := (LOG_LEVELS level).getD 1,
    outputMode := output,
    logFileStream := opts.filePath.isSome && (output == "file" || output == "both") }

/-- replaceConsole of the second variant: stores the resolved path (or
none); also returns normally in every case. -/
def replaceConsoleV2 (opts : InitOptions) : ConfigV2 :=
  let level := opts.level.getD "info"
  let output := opts.output.getD "console"
  { currentLevel := (LOG_LEVELS level).getD 1,
    outputMode := output,
    logFilePath := opts.filePath.map resolvePath }

/-- Nullish coalescing with null: absence becomes null, any present value
(including null) is kept. -/
def nullish (o : Option JVal) : JVal :=
  match o with
  | none => .jnull
  | some v => v

/-- The seed object passed to withContext; every field optional, with
none standing for an absent (or null, for custom) field. -/
structure Seed where
  userId : Option JVal
  txId : Option JVal
  custom : Option (List (String × JVal))
deriving DecidableEq, Repr

/-- The store built by withContext of src/logger.js: userId is the seed
value with nullish default null; txId is the seed value unless it is
nullish, in which case a freshly generated identifier is used (the
generated randomUUID is an input of the model); custom defaults to the
empty object. -/
def withContextStore (seed : Seed) (freshId : String) : Store :=
  { userId := nullish seed.userId,
    txId :=
      match nullish seed.txId with
      | .jnull => .jstr freshId
      | v => v,
    custom := seed.custom.getD [] }

/-- asyncContext.run of the platform AsyncLocalStorage, at its interface:
fn and everything it schedules observe exactly the given store, and run
returns the outcome of fn unchanged. In the pure embedding the ambient
store is the argument of fn. -/
def asyncRun {α : Type} (store : Store) (fn : Option Store → α) : α := fn (some store)

/-- withContext of src/logger.js. -/
def withContext {α : Type} (seed : Seed) (freshId : String) (fn : Option Store → α) : α :=
  asyncRun (withContextStore seed freshId) fn

/-- addContext of src/logger.js: spread-merge the new fields into the
custom map of the active store; a no-op when no store is active. -/
def addContext (stOpt : Option Store) (fields : List (String × JVal)) : Option Store :=
  match stOpt with
  | none => none
  | some st => some { st with custom := objSpread st.custom fields }

/-- captureContext of src/logger.js: a shallow copy of the active store,
or the empty object when none is active. -/
def captureContext (stOpt : Option Store) : Store := stOpt.getD emptyCtx

/-- runWithCapturedContext of src/logger.js: re-enter the captured store
for the extent of fn. -/
def runWithCapturedContext {α : Type} (captured : Store) (fn : Option Store → α) : α :=
  fn (some captured)

/-- One step of optional-chaining property access used by the middleware
path resolution: obj?.[key], where a non-object yields undefined. -/
def getPathSeg (h : Heap) (ov : Option JVal) (key : String) : Option JVal :=
  match ov with
  | some (.ref a) => lookupField (h.fields a) key
  | _ => none

/-- The userId resolution of loggerMiddleware: split the dotted path and
reduce with optional chaining over the request object, with nullish
default null. -/
def resolveUserId (h : Heap) (req : JVal) (userIdPath : String) : JVal :=
  nullish ((userIdPath.splitOn ".").foldl (getPathSeg h) (some req))

/-- The store established by loggerMiddleware for one request: resolved
userId, txId from the inbound header unless absent or empty (|| is
falsy-based, so an empty header string also falls back to the generated
id), and an empty custom map. -/
def middlewareStore (h : Heap) (req : JVal) (userIdPath : String)
    (headerVal : Option String) (genId : String) : Store :=
  { userId := resolveUserId h req userIdPath,
    txId := .jstr
      (match headerVal with
       | some s => if s = "" then genId else s
       | none => genId),
    custom := [] }

/-- An action of an asynchronous chain in the interleaving model: emit a
log call, or schedule a continuation (timer, promise callback) consisting
of further actions. -/
inductive Act where
  | log (lvl : Level) (message : String) : Act
  | fork (acts : List Act) : Act

/-- A schedulable unit of work: the label of the chain it causally belongs
to, the AsyncLocalStorage store captured for it at scheduling time, and
its remaining actions. -/
structure Task where
  label : Nat
  store : Option Store
  acts : List Act

/-- One recorded log event of the interleaving model: which chain issued
it and which store the emit call observed. -/
structure SchedEvent where
  label : Nat
  store : Option Store
  lvl : Level
  message : String
deriving DecidableEq, Repr

/-- State of the cooperative single-threaded scheduler: the pending tasks
and the events logged so far. -/
structure SchedState where
  tasks : List Task
  events : List SchedEvent

/-- One scheduler step, running the next action of the task chosen by
index `i` (an out-of-range choice is a stutter). Modelled from the spec:
this is the AsyncLocalStorage propagation contract of the Context Store
(spec section 4.1) — a continuation scheduled by a task runs with the
store that was active when it was scheduled, and a log action reads the
store of the running task. -/
def stepSched (s : SchedState) (i : Nat) : SchedState :=
  match s.tasks[i]? with
  | none => s
  | some t =>
    match t.acts with
    | [] => { s with tasks := s.tasks.eraseIdx i }
    | Act.log lvl m :: rest =>
      { tasks := s.tasks.set i { t with acts := rest },
        events := s.events ++ [⟨t.label, t.store, lvl, m⟩] }
    | Act.fork acts :: rest =>
      { tasks := s.tasks.set i { t with acts := rest }
          ++ [{ label := t.label, store := t.store, acts := acts }],
        events := s.events }

/-- Run the scheduler under an arbitrary interleaving, given as the list
of task choices. -/
def runSched (s : SchedState) : List Nat → SchedState
  | [] => s
  | c :: cs => runSched (stepSched s c) cs

/-- The initial state for two concurrently established chains: chain 0
entered with store A, chain 1 with store B (each the result of a separate
asyncContext.run at its establishment point). -/
def initSched (stA stB : Store) (actsA actsB : List Act) : SchedState :=
  { tasks := [⟨0, some stA, actsA⟩, ⟨1, some stB, actsB⟩], events := [] }

/-- The addresses directly referenced by the object at address `a`. -/
def succs (h : Heap) (a : Nat) : List Nat :=
  (h.fields a).filterMap (fun kv =>
    match kv.2 with
    | .ref b => some b
    | _ => none)

/-- Reachability (zero or more reference steps) between heap addresses. -/
inductive Steps (h : Heap) : Nat → Nat → Prop where
  | refl (a : Nat) : Steps h a a
  | tail {a b c : Nat} : Steps h a b → c ∈ succs h b → Steps h a c

/-- A reference cycle is reachable from address `r`: some address `a`
reachable from `r` lies on a cycle of at least one step. -/
def HasCycleFrom (h : Heap) (r : Nat) : Prop :=
  ∃ a, Steps h r a ∧ ∃ m, m ∈ succs h a ∧ Steps h m a

/-- The object with field list `flds` contains a reference cycle. -/
def HasCycleObj (h : Heap) (flds : List (String × JVal)) : Prop :=
  ∃ kv ∈ flds, ∃ r, kv.2 = JVal.ref r ∧ HasCycleFrom h r

/-- No BigInt among the values of a field list. -/
def noBigList (flds : List (String × JVal)) : Bool :=
  flds.all (fun kv => !kv.2.isBig)

/-- No BigInt anywhere in the heap. -/
def noBigHeap (h : Heap) : Bool :=
  h.objs.all noBigList

/-- Substring test on character lists, used to talk about the presence of
the cycle marker in an output line. -/
def isPrefixChars : List Char → List Char → Bool
  | [], _ => true
  | _ :: _, [] => false
  | a :: as, b :: bs => a == b && isPrefixChars as bs

/-- Whether `pat` occurs as a contiguous substring of the list. -/
def containsChars (pat : List Char) : List Char → Bool
  | [] => isPrefixChars pat []
  | c :: rest => isPrefixChars pat (c :: rest) || containsChars pat rest

/-- Whether the cycle marker [Circular] occurs in an output line. -/
def hasMarker (s : String) : Bool :=
  containsChars "[Circular]".data s.data

/-! Lemmas about field lookup and the entry assembly. -/

theorem lookupField_cons (p : String × JVal) (flds : List (String × JVal)) (k : String) :
    lookupField (p :: flds) k = if p.1 = k then some p.2 else lookupField flds k := by
  by_cases hp : p.1 = k
  · have hb : (p.1 == k) = true := beq_iff_eq.mpr hp
    simp [lookupField, List.find?, hb, hp]
  · have hb : (p.1 == k) = false := beq_eq_false_iff_ne.mpr hp
    simp [lookupField, List.find?, hb, hp]

theorem lookupField_objInsert_self (flds : List (String × JVal)) (k : String) (v : JVal) :
    lookupField (objInsert flds k v) k = some v := by
  induction flds with
  | nil => simp [objInsert, lookupField_cons]
  | cons p rest ih =>
    by_cases hp : p.1 = k
    · simp [objInsert, hp, lookupField_cons]
    · simp [objInsert, hp, lookupField_cons, ih]

theorem lookupField_objInsert_other (flds : List (String × JVal)) (k : String) (v : JVal)
    (k1 : String) (hk : k ≠ k1) :
    lookupField (objInsert flds k v) k1 = lookupField flds k1 := by
  induction flds with
  | nil => simp [objInsert, lookupField_cons, hk]
  | cons p rest ih =>
    by_cases hp : p.1 = k
    · simp [objInsert, hp, lookupField_cons, hk]
    · simp [objInsert, hp, lookupField_cons, ih]

theorem lookupField_objSpread (init data : List (String × JVal)) (k : String) :
    lookupField (objSpread init data) k =
      match dataLast k data with
      | some v => some v
      | none => lookupField init k := by
  induction data generalizing init with
  | nil => simp [objSpread, dataLast]
  | cons kv rest ih =>
    obtain ⟨k0, v0⟩ := kv
    have hstep : objSpread init ((k0, v0) :: rest) = objSpread (objInsert init k0 v0) rest := rfl
    rw [hstep, ih]
    simp only [dataLast]
    cases hdl : dataLast k rest with
    | some v => simp
    | none =>
      by_cases h0 : k0 = k
      · subst h0
        simp [lookupField_objInsert_self]
      · simp [h0, lookupField_objInsert_other _ _ _ _ h0]

theorem lookupField_objSpread_of_some (init data : List (String × JVal)) (k : String)
    (v : JVal) (hd : dataLast k data = some v) :
    lookupField (objSpread init data) k = some v := by
  rw [lookupField_objSpread, hd]

theorem lookupField_objSpread_of_none (init data : List (String × JVal)) (k : String)
    (hd : dataLast k data = none) :
    lookupField (objSpread init data) k = lookupField init k := by
  rw [lookupField_objSpread, hd]

theorem lookupField_applyCustom_reserved (entry custom : List (String × JVal)) (k : String)
    (hk : k ∈ RESERVED_FIELDS) :
    lookupField (applyCustom entry custom) k = lookupField entry k := by
  induction custom generalizing entry with
  | nil => rfl
  | cons kv rest ih =>
    by_cases hr : kv.1 ∈ RESERVED_FIELDS
    · have hstep : applyCustom entry (kv :: rest) = applyCustom entry rest := by
        simp [applyCustom, hr]
      rw [hstep, ih]
    · have hkk : kv.1 ≠ k := fun he => hr (he ▸ hk)
      have hstep : applyCustom entry (kv :: rest) =
          applyCustom (objInsert entry kv.1 kv.2) rest := by
        simp [applyCustom, hr]
      rw [hstep, ih, lookupField_objInsert_other _ _ _ _ hkk]

theorem lookupField_emittedEntry_msg (ctx : Store) (ts : String) (lvl : Level)
    (message : String) (data : List (String × JVal)) :
    lookupField (emittedEntry ctx ts lvl message data) "msg" = some (.jstr message) := by
  unfold emittedEntry entryFields
  rw [lookupField_applyCustom_reserved _ _ _ (by decide)]
  exact lookupField_objInsert_self _ _ _

theorem lookupField_emittedEntry_reserved_of_dataLast (ctx : Store) (ts : String)
    (lvl : Level) (message : String) (data : List (String × JVal)) (k : String) (v : JVal)
    (hk : k ∈ RESERVED_FIELDS) (hkm : k ≠ "msg") (hd : dataLast k data = some v) :
    lookupField (emittedEntry ctx ts lvl message data) k = some v := by
  unfold emittedEntry entryFields
  rw [lookupField_applyCustom_reserved _ _ _ hk,
    lookupField_objInsert_other _ _ _ _ (fun he => hkm he.symm),
    lookupField_objSpread_of_some _ _ _ _ hd]

theorem lookupField_emittedEntry_ts (ctx : Store) (ts : String) (lvl : Level)
    (message : String) (data : List (String × JVal)) (hd : dataLast "ts" data = none) :
    lookupField (emittedEntry ctx ts lvl message data) "ts" = some (.jstr ts) := by
  unfold emittedEntry entryFields
  rw [lookupField_applyCustom_reserved _ _ _ (by decide),
    lookupField_objInsert_other _ _ _ _ (by decide),
    lookupField_objSpread_of_none _ _ _ hd]
  rfl

theorem lookupField_emittedEntry_level (ctx : Store) (ts : String) (lvl : Level)
    (message : String) (data : List (String × JVal)) (hd : dataLast "level" data = none) :
    lookupField (emittedEntry ctx ts lvl message data) "level" = some (.jstr lvl.name) := by
  unfold emittedEntry entryFields
  rw [lookupField_applyCustom_reserved _ _ _ (by decide),
    lookupField_objInsert_other _ _ _ _ (by decide),
    lookupField_objSpread_of_none _ _ _ hd]
  rfl

theorem lookupField_emittedEntry_userId (ctx : Store) (ts : String) (lvl : Level)
    (message : String) (data : List (String × JVal)) (hd : dataLast "userId" data = none) :
    lookupField (emittedEntry ctx ts lvl message data) "userId" = some ctx.userId := by
  unfold emittedEntry entryFields
  rw [lookupField_applyCustom_reserved _ _ _ (by decide),
    lookupField_objInsert_other _ _ _ _ (by decide),
    lookupField_objSpread_of_none _ _ _ hd]
  rfl

theorem lookupField_emittedEntry_txId (ctx : Store) (ts : String) (lvl : Level)
    (message : String) (data : List (String × JVal)) (hd : dataLast "txId" data = none) :
    lookupField (emittedEntry ctx ts lvl message data) "txId" = some ctx.txId := by
  unfold emittedEntry entryFields
  rw [lookupField_applyCustom_reserved _ _ _ (by decide),
    lookupField_objInsert_other _ _ _ _ (by decide),
    lookupField_objSpread_of_none _ _ _ hd]
  rfl

/-! Monotonicity and totality of the WeakSet-based serializer: the seen
set only grows and stays duplicate-free, and with the fuel chosen by
safeStringify the serializer never runs out of fuel, so `none` means
exactly a thrown error (a BigInt value). -/

theorem serFieldsWith_mono
    (f : List Nat → JVal → Option (String × List Nat × Bool))
    (Hf : ∀ seen v r, f seen v = some r → seen ⊆ r.2.1 ∧ (seen.Nodup → r.2.1.Nodup)) :
    ∀ (seen : List Nat) (flds : List (String × JVal)) r,
      serFieldsWith f seen flds = some r → seen ⊆ r.2.1 ∧ (seen.Nodup → r.2.1.Nodup) := by
  intro seen flds
  induction flds generalizing seen with
  | nil =>
    intro r hr
    simp only [serFieldsWith] at hr
    cases hr
    exact ⟨List.Subset.refl _, id⟩
  | cons kv rest ih =>
    intro r hr
    obtain ⟨k, v⟩ := kv
    cases hf : f seen v with
    | none =>
      simp only [serFieldsWith, hf] at hr
      exact Option.noConfusion hr
    | some r1 =>
      obtain ⟨sv, seen1, hit1⟩ := r1
      cases hrest : serFieldsWith f seen1 rest with
      | none =>
        simp only [serFieldsWith, hf, hrest] at hr
        exact Option.noConfusion hr
      | some r2 =>
        obtain ⟨parts, seen2, hit2⟩ := r2
        simp only [serFieldsWith, hf, hrest] at hr
        cases hr
        have h1 := Hf seen v _ hf
        have h2 := ih seen1 _ hrest
        exact ⟨List.Subset.trans h1.1 h2.1, fun hnd => h2.2 (h1.2 hnd)⟩

theorem serValSafe_mono (h : Heap) :
    ∀ (fuel : Nat) (seen : List Nat) (v : JVal) r,
      serValSafe h fuel seen v = some r → seen ⊆ r.2.1 ∧ (seen.Nodup → r.2.1.Nodup) := by
  intro fuel
  induction fuel with
  | zero => intro seen v r hr; cases hr
  | succ fuel ih =>
    intro seen v r hr
    cases v with
    | jnull => cases hr; exact ⟨List.Subset.refl _, id⟩
    | jbool b => cases hr; exact ⟨List.Subset.refl _, id⟩
    | jnum n => cases hr; exact ⟨List.Subset.refl _, id⟩
    | jstr s => cases hr; exact ⟨List.Subset.refl _, id⟩
    | jbig n => cases hr
    | ref a =>
      simp only [serValSafe] at hr
      by_cases ha : a ∈ seen
      · rw [if_pos ha] at hr
        cases hr
        exact ⟨List.Subset.refl _, id⟩
      · rw [if_neg ha] at hr
        cases hflds : serFieldsWith (serValSafe h fuel) (a :: seen) (h.fields a) with
        | none => rw [hflds] at hr; cases hr
        | some r2 =>
          obtain ⟨parts, seen2, hit⟩ := r2
          rw [hflds] at hr
          cases hr
          have h2 := serFieldsWith_mono _ ih (a :: seen) _ _ hflds
          refine ⟨fun x hx => h2.1 (List.mem_cons_of_mem _ hx), fun hnd => h2.2 ?_⟩
          exact List.nodup_cons.mpr ⟨ha, hnd⟩

/-- The number of elements of the seen set that are genuine heap
addresses. -/
def inRangeCount (n : Nat) (seen : List Nat) : Nat :=
  (seen.filter (fun a => decide (a < n))).length

theorem inRangeCount_le (n : Nat) (seen : List Nat) (hnd : seen.Nodup) :
    inRangeCount n seen ≤ n := by
  have hnodup : (seen.filter (fun a => decide (a < n))).Nodup := hnd.filter _
  have hsub : (seen.filter (fun a => decide (a < n))).toFinset ⊆ Finset.range n := by
    intro x hx
    rw [List.mem_toFinset] at hx
    have := List.of_mem_filter hx
    simp only [decide_eq_true_eq] at this
    exact Finset.mem_range.mpr this
  have hcard := Finset.card_le_card hsub
  rw [Finset.card_range, List.toFinset_card_of_nodup hnodup] at hcard
  exact hcard

theorem inRangeCount_mono (n : Nat) (s1 s2 : List Nat) (hnd : s1.Nodup) (hsub : s1 ⊆ s2) :
    inRangeCount n s1 ≤ inRangeCount n s2 := by
  have hnodup : (s1.filter (fun a => decide (a < n))).Nodup := hnd.filter _
  have hsubf : (s1.filter (fun a => decide (a < n))).toFinset ⊆
      (s2.filter (fun a => decide (a < n))).toFinset := by
    intro x hx
    rw [List.mem_toFinset] at hx ⊢
    rw [List.mem_filter] at hx ⊢
    exact ⟨hsub hx.1, hx.2⟩
  have hcard := Finset.card_le_card hsubf
  rw [List.toFinset_card_of_nodup hnodup] at hcard
  exact le_trans hcard (le_trans (List.toFinset_card_le _) (le_refl _))

theorem inRangeCount_cons_lt (n a : Nat) (seen : List Nat) (ha : a < n) :
    inRangeCount n (a :: seen) = inRangeCount n seen + 1 := by
  simp [inRangeCount, List.filter_cons, ha]

theorem serFieldsWith_total
    (f : List Nat → JVal → Option (String × List Nat × Bool))
    (P : List Nat → Prop)
    (Hf : ∀ seen v, P seen → v.isBig = false → (f seen v).isSome)
    (Hp : ∀ seen v r, f seen v = some r → P seen → P r.2.1) :
    ∀ (seen : List Nat) (flds : List (String × JVal)),
      P seen → noBigList flds = true → (serFieldsWith f seen flds).isSome := by
  intro seen flds
  induction flds generalizing seen with
  | nil => intro _ _; simp [serFieldsWith]
  | cons kv rest ih =>
    intro hP hnb
    obtain ⟨k, v⟩ := kv
    simp only [noBigList, List.all_cons, Bool.and_eq_true, Bool.not_eq_true'] at hnb
    have h1 := Hf seen v hP hnb.1
    cases hf : f seen v with
    | none => rw [hf] at h1; cases h1
    | some r1 =>
      obtain ⟨sv, seen1, hit1⟩ := r1
      have hP1 := Hp seen v _ hf hP
      have h2 := ih seen1 hP1 (by simp [noBigList, hnb.2])
      cases hrest : serFieldsWith f seen1 rest with
      | none => rw [hrest] at h2; cases h2
      | some r2 =>
        obtain ⟨parts, seen2, hit2⟩ := r2
        simp [serFieldsWith, hf, hrest]

theorem serValSafe_total (h : Heap) (hH : noBigHeap h = true) :
    ∀ (fuel : Nat) (seen : List Nat) (v : JVal),
      seen.Nodup → h.objs.length + 1 ≤ fuel + inRangeCount h.objs.length seen →
      v.isBig = false → (serValSafe h fuel seen v).isSome := by
  intro fuel
  induction fuel with
  | zero =>
    intro seen v hnd hfuel _
    have := inRangeCount_le h.objs.length seen hnd
    omega
  | succ fuel ih =>
    intro seen v hnd hfuel hvb
    cases v with
    | jnull => simp [serValSafe]
    | jbool b => simp [serValSafe]
    | jnum n => simp [serValSafe]
    | jstr s => simp [serValSafe]
    | jbig n => simp [JVal.isBig] at hvb
    | ref a =>
      simp only [serValSafe]
      by_cases ha : a ∈ seen
      · simp [ha]
      · rw [if_neg ha]
        have hnd1 : (a :: seen).Nodup := List.nodup_cons.mpr ⟨ha, hnd⟩
        by_cases har : a < h.objs.length
        · have hflds : noBigList (h.fields a) = true := by
            have hget : h.fields a = h.objs[a] := by
              simp only [Heap.fields, List.getD]
              rw [List.get?_eq_getElem?, List.getElem?_eq_getElem har]
              rfl
            rw [hget]
            have hmem : h.objs[a] ∈ h.objs := List.getElem_mem _
            exact (List.all_eq_true.mp hH) _ hmem
          have htot := serFieldsWith_total (serValSafe h fuel)
            (fun sn => sn.Nodup ∧ h.objs.length + 1 ≤ fuel + inRangeCount h.objs.length sn)
            (fun sn w hP hw => ih sn w hP.1 hP.2 hw)
            (fun sn w r hr hP => by
              have hm := serValSafe_mono h fuel sn w r hr
              refine ⟨hm.2 hP.1, ?_⟩
              have := inRangeCount_mono h.objs.length sn r.2.1 hP.1 hm.1
              omega)
            (a :: seen) (h.fields a)
            ⟨hnd1, by rw [inRangeCount_cons_lt _ _ _ har]; omega⟩
            hflds
          cases hres : serFieldsWith (serValSafe h fuel) (a :: seen) (h.fields a) with
          | none => rw [hres] at htot; cases htot
          | some r2 => obtain ⟨parts, seen2, hit⟩ := r2; simp
        · have hget : h.fields a = [] := by
            simp only [Heap.fields, List.getD]
            rw [List.get?_eq_getElem?, List.getElem?_eq_none (by omega : h.objs.length ≤ a)]
            rfl
          rw [hget]
          simp [serFieldsWith]

theorem safeStringify_total (h : Heap) (flds : List (String × JVal))
    (hH : noBigHeap h = true) (hE : noBigList flds = true) :
    (safeStringify h flds).isSome := by
  have htot := serFieldsWith_total (serValSafe h (h.objs.length + 1))
    (fun sn => sn.Nodup ∧ h.objs.length + 1 ≤ (h.objs.length + 1) + inRangeCount h.objs.length sn)
    (fun sn w hP hw => serValSafe_total h hH _ sn w hP.1 hP.2 hw)
    (fun sn w r hr hP => by
      have hm := serValSafe_mono h _ sn w r hr
      refine ⟨hm.2 hP.1, ?_⟩
      omega)
    [] flds ⟨List.nodup_nil, by omega⟩ hE
  cases hres : serFieldsWith (serValSafe h (h.objs.length + 1)) [] flds with
  | none => rw [hres] at htot; cases htot
  | some r => obtain ⟨parts, seen, hit⟩ := r; simp [safeStringify, hres]

/-! Relation between the WeakSet serializer and the plain serializer, and
the guarantee that a reachable reference cycle always triggers the
[Circular] marker: if the WeakSet run completes without ever hitting a
seen object, it coincides with a plain JSON.stringify run, and a
successful plain run certifies that no reachable cycle exists. -/

theorem serFieldsWith_to_plain
    (f : List Nat → JVal → Option (String × List Nat × Bool))
    (g : List Nat → JVal → Option String)
    (Hfg : ∀ seen path v s seen1, path ⊆ seen → f seen v = some (s, seen1, false) →
      g path v = some s)
    (Hmono : ∀ seen v r, f seen v = some r → seen ⊆ r.2.1) :
    ∀ (seen path : List Nat) (flds : List (String × JVal)) (parts : List String)
      (seen2 : List Nat),
      path ⊆ seen → serFieldsWith f seen flds = some (parts, seen2, false) →
      serFieldsPlainWith (g path) flds = some parts := by
  intro seen path flds
  induction flds generalizing seen with
  | nil =>
    intro parts seen2 hp hr
    have hXY := Option.some.inj hr
    have hparts : ([] : List String) = parts := congrArg Prod.fst hXY
    simp [serFieldsPlainWith, ← hparts]
  | cons kv rest ih =>
    intro parts seen2 hp hr
    obtain ⟨k, v⟩ := kv
    cases hf : f seen v with
    | none =>
      simp only [serFieldsWith, hf] at hr
      exact Option.noConfusion hr
    | some r1 =>
      obtain ⟨sv, seen1, hit1⟩ := r1
      cases hrest : serFieldsWith f seen1 rest with
      | none =>
        simp only [serFieldsWith, hf, hrest] at hr
        exact Option.noConfusion hr
      | some r2 =>
        obtain ⟨parts1, seen3, hit2⟩ := r2
        have heq : serFieldsWith f seen ((k, v) :: rest) =
            some ((jquote k ++ ":" ++ sv) :: parts1, seen3, hit1 || hit2) := by
          simp only [serFieldsWith, hf, hrest]
        have hXY := Option.some.inj (heq.symm.trans hr)
        have hparts : (jquote k ++ ":" ++ sv) :: parts1 = parts := congrArg Prod.fst hXY
        have hhit : (hit1 || hit2) = false := congrArg (fun p => p.2.2) hXY
        have hh := Bool.or_eq_false_iff.mp hhit
        have hg := Hfg seen path v sv seen1 hp (by rw [hf, hh.1])
        have hsub : path ⊆ seen1 := List.Subset.trans hp (Hmono seen v _ hf)
        have hplain := ih seen1 parts1 seen3 hsub (by rw [hrest, hh.2])
        simp [serFieldsPlainWith, hg, hplain, hparts]

theorem serValSafe_to_plain (h : Heap) :
    ∀ (fuel : Nat) (seen path : List Nat) (v : JVal) (s : String) (seen1 : List Nat),
      path ⊆ seen → serValSafe h fuel seen v = some (s, seen1, false) →
      serValPlain h fuel path v = some s := by
  intro fuel
  induction fuel with
  | zero => intro seen path v s seen1 _ hr; exact Option.noConfusion hr
  | succ fuel ih =>
    intro seen path v s seen1 hp hr
    cases v with
    | jnull => cases hr; rfl
    | jbool b => cases hr; rfl
    | jnum n => cases hr; rfl
    | jstr str => cases hr; rfl
    | jbig n => exact Option.noConfusion hr
    | ref a =>
      simp only [serValSafe] at hr
      by_cases ha : a ∈ seen
      · rw [if_pos ha] at hr
        cases hr
      · rw [if_neg ha] at hr
        have hap : a ∉ path := fun hm => ha (hp hm)
        cases hflds : serFieldsWith (serValSafe h fuel) (a :: seen) (h.fields a) with
        | none =>
          rw [hflds] at hr
          exact Option.noConfusion hr
        | some r2 =>
          obtain ⟨parts, seen2, hit⟩ := r2
          rw [hflds] at hr
          have hXY := Option.some.inj hr
          have hs : braceJoin parts = s := congrArg Prod.fst hXY
          have hhit : hit = false := congrArg (fun p => p.2.2) hXY
          rw [hhit] at hflds
          have hplain := serFieldsWith_to_plain (serValSafe h fuel) (serValPlain h fuel)
            (fun sn pt w str sn1 hpt hw => ih sn pt w str sn1 hpt hw)
            (fun sn w r hw => (serValSafe_mono h fuel sn w r hw).1)
            (a :: seen) (a :: path) (h.fields a) parts seen2
            (List.cons_subset_cons a hp) hflds
          simp [serValPlain, hap, hplain, hs]

theorem serFieldsPlainWith_proj (g : JVal → Option String) :
    ∀ (flds : List (String × JVal)) (parts : List String),
      serFieldsPlainWith g flds = some parts →
      ∀ kv ∈ flds, ∃ s, g kv.2 = some s := by
  intro flds
  induction flds with
  | nil => intro parts _ kv hkv; cases hkv
  | cons kv0 rest ih =>
    intro parts hr kv hkv
    obtain ⟨k, v⟩ := kv0
    cases hg : g v with
    | none =>
      simp only [serFieldsPlainWith, hg] at hr
      exact Option.noConfusion hr
    | some sv =>
      cases hrest : serFieldsPlainWith g rest with
      | none =>
        simp only [serFieldsPlainWith, hg, hrest] at hr
        exact Option.noConfusion hr
      | some parts1 =>
        rcases List.mem_cons.mp hkv with hkv | hkv
        · subst hkv; exact ⟨sv, hg⟩
        · exact ih parts1 hrest kv hkv

theorem serFieldsWith_proj_nohit
    (f : List Nat → JVal → Option (String × List Nat × Bool)) :
    ∀ (seen : List Nat) (flds : List (String × JVal)) (parts : List String)
      (seen2 : List Nat),
      serFieldsWith f seen flds = some (parts, seen2, false) →
      ∀ kv ∈ flds, ∃ sn s sn1, f sn kv.2 = some (s, sn1, false) := by
  intro seen flds
  induction flds generalizing seen with
  | nil => intro parts seen2 _ kv hkv; cases hkv
  | cons kv0 rest ih =>
    intro parts seen2 hr kv hkv
    obtain ⟨k, v⟩ := kv0
    cases hf : f seen v with
    | none =>
      simp only [serFieldsWith, hf] at hr
      exact Option.noConfusion hr
    | some r1 =>
      obtain ⟨sv, seen1, hit1⟩ := r1
      cases hrest : serFieldsWith f seen1 rest with
      | none =>
        simp only [serFieldsWith, hf, hrest] at hr
        exact Option.noConfusion hr
      | some r2 =>
        obtain ⟨parts1, seen3, hit2⟩ := r2
        have heq : serFieldsWith f seen ((k, v) :: rest) =
            some ((jquote k ++ ":" ++ sv) :: parts1, seen3, hit1 || hit2) := by
          simp only [serFieldsWith, hf, hrest]
        have hXY := Option.some.inj (heq.symm.trans hr)
        have hhit : (hit1 || hit2) = false := congrArg (fun p => p.2.2) hXY
        have hh := Bool.or_eq_false_iff.mp hhit
        rcases List.mem_cons.mp hkv with hkv2 | hkv2
        · subst hkv2
          exact ⟨seen, sv, seen1, by rw [hf, hh.1]⟩
        · exact ih seen1 parts1 seen3 (by rw [hrest, hh.2]) kv hkv2

theorem succs_field (h : Heap) (a c : Nat) (hc : c ∈ succs h a) :
    ∃ kv ∈ h.fields a, kv.2 = JVal.ref c := by
  obtain ⟨kv, hkv, hval⟩ := List.mem_filterMap.mp hc
  obtain ⟨k, v⟩ := kv
  refine ⟨(k, v), hkv, ?_⟩
  cases v with
  | ref b =>
    have hbc : b = c := by
      simpa using hval
    rw [hbc]
  | jnull => exact Option.noConfusion hval
  | jbool b => exact Option.noConfusion hval
  | jnum n => exact Option.noConfusion hval
  | jstr s => exact Option.noConfusion hval
  | jbig n => exact Option.noConfusion hval

theorem plain_success_fields (h : Heap) (fuel : Nat) (path : List Nat) (a : Nat)
    (s : String) (hr : serValPlain h (fuel + 1) path (JVal.ref a) = some s) :
    a ∉ path ∧ ∃ parts, serFieldsPlainWith (serValPlain h fuel (a :: path))
      (h.fields a) = some parts := by
  simp only [serValPlain] at hr
  by_cases ha : a ∈ path
  · rw [if_pos ha] at hr
    exact Option.noConfusion hr
  · rw [if_neg ha] at hr
    cases hflds : serFieldsPlainWith (serValPlain h fuel (a :: path)) (h.fields a) with
    | none =>
      rw [hflds] at hr
      exact Option.noConfusion hr
    | some parts => exact ⟨ha, parts, rfl⟩

theorem steps_explore (h : Heap) :
    ∀ {r a : Nat}, Steps h r a →
    ∀ (fuel : Nat) (path : List Nat) (s : String),
      serValPlain h fuel path (JVal.ref r) = some s →
      ∃ fuel1 path1 s1, serValPlain h fuel1 path1 (JVal.ref a) = some s1 ∧ path ⊆ path1 := by
  intro r a hsteps
  induction hsteps with
  | refl => intro fuel path s hr; exact ⟨fuel, path, s, hr, List.Subset.refl _⟩
  | @tail b1 c1 hab hc ih =>
    intro fuel path s hr
    obtain ⟨fuel1, path1, s1, hr1, hsub1⟩ := ih fuel path s hr
    cases fuel1 with
    | zero => exact Option.noConfusion hr1
    | succ fuel1 =>
      obtain ⟨hb, parts, hflds⟩ := plain_success_fields h fuel1 path1 _ s1 hr1
      obtain ⟨kv, hkv, hval⟩ := succs_field h _ _ hc
      obtain ⟨s2, hs2⟩ := serFieldsPlainWith_proj _ _ _ hflds kv hkv
      rw [hval] at hs2
      exact ⟨fuel1, b1 :: path1, s2, hs2,
        List.Subset.trans hsub1 (List.subset_cons_self _ _)⟩

theorem no_cycle_of_plain_success (h : Heap) (r : Nat) (hcyc : HasCycleFrom h r)
    (fuel : Nat) (path : List Nat) (s : String)
    (hr : serValPlain h fuel path (JVal.ref r) = some s) : False := by
  obtain ⟨a, hra, m, hm, hma⟩ := hcyc
  obtain ⟨fuel1, path1, s1, hr1, -⟩ := steps_explore h hra fuel path s hr
  cases fuel1 with
  | zero => exact Option.noConfusion hr1
  | succ fuel1 =>
    obtain ⟨hb, parts, hflds⟩ := plain_success_fields h fuel1 path1 _ s1 hr1
    obtain ⟨kv, hkv, hval⟩ := succs_field h _ _ hm
    obtain ⟨s2, hs2⟩ := serFieldsPlainWith_proj _ _ _ hflds kv hkv
    rw [hval] at hs2
    obtain ⟨fuel2, path2, s3, hr2, hsub2⟩ := steps_explore h hma fuel1 (a :: path1) s2 hs2
    cases fuel2 with
    | zero => exact Option.noConfusion hr2
    | succ fuel2 =>
      obtain ⟨hnot, -⟩ := plain_success_fields h fuel2 path2 _ s3 hr2
      exact hnot (hsub2 (List.mem_cons_self _ _))

theorem safeStringify_hit_of_cycle (h : Heap) (flds : List (String × JVal))
    (hH : noBigHeap h = true) (hE : noBigList flds = true)
    (hcyc : HasCycleObj h flds) :
    ∃ out, safeStringify h flds = some (out, true) := by
  have htot := safeStringify_total h flds hH hE
  cases hres : safeStringify h flds with
  | none => rw [hres] at htot; cases htot
  | some r =>
    obtain ⟨out, hit⟩ := r
    cases hit with
    | true => exact ⟨out, rfl⟩
    | false =>
      exfalso
      cases hres2 : serFieldsWith (serValSafe h (h.objs.length + 1)) [] flds with
      | none =>
        unfold safeStringify at hres
        rw [hres2] at hres
        exact Option.noConfusion hres
      | some r2 =>
        obtain ⟨parts, seen2, hit2⟩ := r2
        have heq : safeStringify h flds = some (braceJoin parts, hit2) := by
          unfold safeStringify
          rw [hres2]
        have hXY := Option.some.inj (heq.symm.trans hres)
        have hh2 : hit2 = false := congrArg Prod.snd hXY
        rw [hh2] at hres2
        obtain ⟨kv, hkv, rr, hrr, hcf⟩ := hcyc
        obtain ⟨sn, sval, sn1, hsafe⟩ :=
          serFieldsWith_proj_nohit (serValSafe h (h.objs.length + 1)) [] flds parts seen2
            hres2 kv hkv
        rw [hrr] at hsafe
        have hplain := serValSafe_to_plain h (h.objs.length + 1) sn [] (JVal.ref rr)
          sval sn1 (List.nil_subset _) hsafe
        exact no_cycle_of_plain_success h rr hcf _ [] sval hplain

/-! Isolation of concurrently interleaved chains in the scheduler model:
the store bound to a task never changes and is inherited unchanged by
every continuation the task schedules, so a chain always logs under the
store of its own establishment point. -/

/-- The invariant tying every task and every recorded event of a chain
label to the store assigned at that chain establishment. -/
def labelOk (sig : Nat → Option Store) (s : SchedState) : Prop :=
  (∀ t ∈ s.tasks, t.store = sig t.label) ∧ (∀ e ∈ s.events, e.store = sig e.label)

theorem stepSched_labelOk (sig : Nat → Option Store) (s : SchedState) (i : Nat)
    (hs : labelOk sig s) : labelOk sig (stepSched s i) := by
  obtain ⟨htasks, hevents⟩ := hs
  cases hget : s.tasks[i]? with
  | none =>
    have hstep : stepSched s i = s := by simp [stepSched, hget]
    rw [hstep]
    exact ⟨htasks, hevents⟩
  | some t =>
    have htmem : t ∈ s.tasks := by
      have hlt : i < s.tasks.length := by
        by_contra hge
        rw [List.getElem?_eq_none (by omega)] at hget
        exact Option.noConfusion hget
      rw [List.getElem?_eq_getElem hlt] at hget
      have := Option.some.inj hget
      rw [← this]
      exact List.getElem_mem _
    have htstore : t.store = sig t.label := htasks t htmem
    cases hacts : t.acts with
    | nil =>
      have hstep : stepSched s i = { s with tasks := s.tasks.eraseIdx i } := by
        simp [stepSched, hget, hacts]
      rw [hstep]
      refine ⟨fun t1 ht1 => ?_, hevents⟩
      exact htasks t1 ((List.eraseIdx_sublist s.tasks i).subset ht1)
    | cons act rest =>
      cases act with
      | log lvl m =>
        have hstep : stepSched s i =
            { tasks := s.tasks.set i { t with acts := rest },
              events := s.events ++ [⟨t.label, t.store, lvl, m⟩] } := by
          simp [stepSched, hget, hacts]
        rw [hstep]
        refine ⟨fun t1 ht1 => ?_, fun e he => ?_⟩
        · rcases List.mem_or_eq_of_mem_set ht1 with hmem | heq
          · exact htasks t1 hmem
          · rw [heq]
            exact htstore
        · rcases List.mem_append.mp he with hmem | hmem
          · exact hevents e hmem
          · rw [List.mem_singleton.mp hmem]
            exact htstore
      | fork acts =>
        have hstep : stepSched s i =
            { tasks := s.tasks.set i { t with acts := rest }
                ++ [{ label := t.label, store := t.store, acts := acts }],
              events := s.events } := by
          simp [stepSched, hget, hacts]
        rw [hstep]
        refine ⟨fun t1 ht1 => ?_, hevents⟩
        rcases List.mem_append.mp ht1 with hmem | hmem
        · rcases List.mem_or_eq_of_mem_set hmem with hmem2 | heq
          · exact htasks t1 hmem2
          · rw [heq]
            exact htstore
        · rw [List.mem_singleton.mp hmem]
          exact htstore

theorem runSched_labelOk (sig : Nat → Option Store) (s : SchedState)
    (choices : List Nat) (hs : labelOk sig s) : labelOk sig (runSched s choices) := by
  induction choices generalizing s with
  | nil => exact hs
  | cons c cs ih => exact ih (stepSched s c) (stepSched_labelOk sig s c hs)

/-! Claim theorems. -/

/-- C1 counterexample: in the second emit variant of src/logger.js (lines
294 onward, cited by the claim), custom context is merged with
Object.assign and no reserved-field filter, so after
addContext with msg spoof and level error, log.info with message real
emits an event whose msg is spoof and whose level is error — the claim,
which asserts msg real and level info for the emission pipeline, is false
on this concrete input. -/
theorem c1_counterexample :
    addContext (some ⟨JVal.jstr "u1", JVal.jstr "t1", []⟩)
        [("msg", JVal.jstr "spoof"), ("level", JVal.jstr "error")]
      = some ⟨JVal.jstr "u1", JVal.jstr "t1",
          [("msg", JVal.jstr "spoof"), ("level", JVal.jstr "error")]⟩ ∧
    emitV2 ⟨1, "console", none⟩
        (some ⟨JVal.jstr "u1", JVal.jstr "t1",
          [("msg", JVal.jstr "spoof"), ("level", JVal.jstr "error")]⟩)
        ⟨[]⟩ "T" Level.info "real" []
      = Except.ok (some
          ("\x7b\"ts\":\"T\",\"level\":\"error\",\"userId\":\"u1\",\"txId\":\"t1\",\"msg\":\"spoof\"\x7d",
           [(Sink.cLog,
             "\x7b\"ts\":\"T\",\"level\":\"error\",\"userId\":\"u1\",\"txId\":\"t1\",\"msg\":\"spoof\"\x7d")])) ∧
    lookupField (emittedEntryV2 ⟨JVal.jstr "u1", JVal.jstr "t1",
        [("msg", JVal.jstr "spoof"), ("level", JVal.jstr "error")]⟩
        "T" Level.info "real" []) "msg" = some (JVal.jstr "spoof") ∧
    lookupField (emittedEntryV2 ⟨JVal.jstr "u1", JVal.jstr "t1",
        [("msg", JVal.jstr "spoof"), ("level", JVal.jstr "error")]⟩
        "T" Level.info "real" []) "msg" ≠ some (JVal.jstr "real") ∧
    lookupField (emittedEntryV2 ⟨JVal.jstr "u1", JVal.jstr "t1",
        [("msg", JVal.jstr "spoof"), ("level", JVal.jstr "error")]⟩
        "T" Level.info "real" []) "level" = some (JVal.jstr "error") := by
  refine ⟨rfl, rfl, rfl, ?_, rfl⟩
  decide

/-- C1 amended: in the first (hardened) emit variant, every reserved key
of the active custom context is dropped at emission: the reserved fields
of the event are exactly those of the draft entry, untouched by the
custom merge; in particular msg is the call message and level is the call
level, also after an addContext carrying spoofed msg and level keys. The
second variant merges custom fields unfiltered (see the counterexample). -/
theorem c1_amended_reserved_protection (st : Store) (flds : List (String × JVal))
    (ts message : String) (lvl : Level) (data : List (String × JVal)) (k : String)
    (hk : k ∈ RESERVED_FIELDS) (hdl : dataLast "level" data = none) :
    ∃ st1, addContext (some st) flds = some st1 ∧
      lookupField (emittedEntry st1 ts lvl message data) k =
        lookupField (entryFields st1 ts lvl message data) k ∧
      lookupField (emittedEntry st1 ts lvl message data) "msg" = some (JVal.jstr message) ∧
      lookupField (emittedEntry st1 ts lvl message data) "level" =
        some (JVal.jstr lvl.name) := by
  refine ⟨{ st with custom := objSpread st.custom flds }, rfl, ?_, ?_, ?_⟩
  · exact lookupField_applyCustom_reserved _ _ _ hk
  · exact lookupField_emittedEntry_msg _ _ _ _ _
  · exact lookupField_emittedEntry_level _ _ _ _ _ hdl

/-- C1 witness: the amended claim instantiated at the spoof scenario of
the specification. -/
theorem c1_witness :
    ∃ st1, addContext (some ⟨JVal.jstr "u1", JVal.jstr "t1", []⟩)
        [("msg", JVal.jstr "spoof"), ("level", JVal.jstr "error")] = some st1 ∧
      lookupField (emittedEntry st1 "T" Level.info "real" []) "msg" =
        lookupField (entryFields st1 "T" Level.info "real" []) "msg" ∧
      lookupField (emittedEntry st1 "T" Level.info "real" []) "msg" =
        some (JVal.jstr "real") ∧
      lookupField (emittedEntry st1 "T" Level.info "real" []) "level" =
        some (JVal.jstr Level.info.name) :=
  c1_amended_reserved_protection ⟨JVal.jstr "u1", JVal.jstr "t1", []⟩
    [("msg", JVal.jstr "spoof"), ("level", JVal.jstr "error")]
    "T" "real" Level.info [] "msg" (by decide) rfl

/-- C2: the claim that emit never raises is right as intent, but the code
has a slip: the catch block rebuilds the fallback object with entry.ts,
which caller data may have overridden with an unserializable value, so
JSON.stringify inside the catch throws and the exception escapes emit.
Evaluation at the failing input: a call with data assigning a BigInt to
ts makes the first variant raise; the second variant has no catch at all
and propagates every serialization failure. -/
theorem c2_bug_eval :
    emit ⟨1, "console", false⟩ none ⟨[]⟩ "2025-01-15T10:23:01.000Z" Level.info "x"
      [("ts", JVal.jbig 5)] = Except.error () ∧
    emitV2 ⟨1, "console", none⟩ none ⟨[]⟩ "2025-01-15T10:23:01.000Z" Level.info "x"
      [("b", JVal.jbig 5)] = Except.error () :=
  ⟨rfl, rfl⟩

/-- C6 counterexample: initialization with file output selected and no
filePath completes normally in both variants — no error is surfaced; the
returned configuration simply has no file stream or path, and a
subsequent error-level emit produces zero writes (the event is silently
lost), where the claim asserts a synchronous fatal configuration error. -/
theorem c6_counterexample :
    replaceConsole ⟨some "info", some "file", none⟩ =
      { currentLevel := 1, outputMode := "file", logFileStream := false } ∧
    replaceConsoleV2 ⟨some "info", some "file", none⟩ =
      { currentLevel := 1, outputMode := "file", logFilePath := none } ∧
    emit (replaceConsole ⟨some "info", some "file", none⟩) none ⟨[]⟩ "T" Level.error
        "boom" []
      = Except.ok (some
          ("\x7b\"ts\":\"T\",\"level\":\"error\",\"userId\":null,\"txId\":null,\"msg\":\"boom\"\x7d",
           [])) :=
  ⟨rfl, rfl, rfl⟩

/-- C6 amended: when file output is selected and filePath is omitted,
replaceConsole returns normally with no file stream configured, every
subsequent dispatch writes nothing to the file sink, and in pure file
mode dispatch writes nothing at all — the misconfiguration is silently
ignored rather than surfaced. -/
theorem c6_amended_silent_ignore (lvlOpt : Option String) (out : String)
    (hout : out = "file" ∨ out = "both") :
    (replaceConsole ⟨lvlOpt, some out, none⟩).logFileStream = false ∧
    (∀ (lvl : Level) (o : String) (w : Sink × String),
      w ∈ dispatch (replaceConsole ⟨lvlOpt, some out, none⟩) lvl o → w.1 ≠ Sink.file) ∧
    (out = "file" → ∀ (lvl : Level) (o : String),
      dispatch (replaceConsole ⟨lvlOpt, some out, none⟩) lvl o = []) := by
  have hstream : (replaceConsole ⟨lvlOpt, some out, none⟩).logFileStream = false := by
    simp [replaceConsole]
  have hmode : (replaceConsole ⟨lvlOpt, some out, none⟩).outputMode = out := rfl
  refine ⟨hstream, ?_, ?_⟩
  · intro lvl o w hw
    simp only [dispatch, hstream, hmode, false_and, if_false] at hw
    rcases hout with hout | hout
    · rw [hout] at hw
      simp at hw
    · rw [hout] at hw
      simp at hw
      rw [hw]
      cases lvl <;> simp [consoleSink]
  · intro hfile lvl o
    subst hfile
    simp [dispatch, hstream, hmode]

/-- C6 witness: the amended claim instantiated at output mode both. -/
theorem c6_witness :
    (replaceConsole ⟨some "info", some "both", none⟩).logFileStream = false ∧
    ((Sink.file, "line\n") ∈
        dispatch (replaceConsole ⟨some "info", some "both", none⟩) Level.info "line" →
      False) := by
  refine ⟨(c6_amended_silent_ignore (some "info") "both" (Or.inr rfl)).1, fun hw => ?_⟩
  exact (c6_amended_silent_ignore (some "info") "both" (Or.inr rfl)).2.1
    Level.info "line" _ hw rfl

/-- The two-object heap with one shared (but acyclic) reference target:
address 0 is an empty unused object, address 1 is the object with one
numeric field, referenced twice from the serialized field list. -/
def sharedHeap : Heap := ⟨[[], [("v", JVal.jnum 1)]]⟩

/-- The field list referencing the same heap object twice. -/
def sharedFlds : List (String × JVal) := [("x", JVal.ref 1), ("y", JVal.ref 1)]

theorem succs_sharedHeap (a : Nat) : succs sharedHeap a = [] := by
  rcases a with _ | _ | n <;> rfl

/-- C10: the WeakSet-based serializer over-approximates cycles: on an
acyclic field list in which the same object is referenced twice, the
second occurrence is replaced by the [Circular] marker (and the hit flag
is set), while a plain JSON.stringify of the same input duplicates the
shared object; the input has no reference cycle. -/
theorem c10_shared_reference_marker :
    safeStringify sharedHeap sharedFlds =
      some ("\x7b\"x\":\x7b\"v\":1\x7d,\"y\":\"[Circular]\"\x7d", true) ∧
    jsonStringify sharedHeap sharedFlds =
      some "\x7b\"x\":\x7b\"v\":1\x7d,\"y\":\x7b\"v\":1\x7d\x7d" ∧
    ¬ HasCycleObj sharedHeap sharedFlds := by
  refine ⟨rfl, rfl, ?_⟩
  rintro ⟨kv, hkv, r, hrr, a, hsteps, m, hm, hma⟩
  rw [succs_sharedHeap a] at hm
  exact List.not_mem_nil m hm

/-- JSON.stringify of the fallback object always succeeds when the ts
value is the primitive timestamp string (the normal case, in which caller
data did not override ts). -/
theorem jsonStringify_fallback_prim (h : Heap) (ts message : String) :
    jsonStringify h (fallbackFields (JVal.jstr ts) message) =
      some (braceJoin
        [jquote "ts" ++ ":" ++ jquote ts,
         jquote "level" ++ ":" ++ jquote "error",
         jquote "msg" ++ ":" ++ jquote "Failed to serialize log entry",
         jquote "originalMsg" ++ ":" ++ jquote message]) := by
  simp [jsonStringify, fallbackFields, serFieldsPlainWith, serValPlain]

/-- Above the level gate and with ts not overridden by caller data, emit
of the first variant always returns one event: either the serialized
entry, or the fallback line when safeStringify fails. -/
theorem emit_not_gated (cfg : Config) (ctxOpt : Option Store) (h : Heap) (ts : String)
    (lvl : Level) (message : String) (data : List (String × JVal))
    (hts : dataLast "ts" data = none)
    (hgate : ¬ lvl.rank < cfg.currentLevel) :
    ∃ out ws, emit cfg ctxOpt h ts lvl message data = Except.ok (some (out, ws)) := by
  unfold emit
  rw [if_neg hgate]
  cases hss : safeStringify h (emittedEntry (ctxOpt.getD emptyCtx) ts lvl message data) with
  | some r =>
    obtain ⟨output, hit⟩ := r
    simp only [hss]
    exact ⟨output, dispatch cfg lvl output, rfl⟩
  | none =>
    simp only [hss, lookupField_emittedEntry_ts _ _ _ _ _ hts, Option.getD_some,
      jsonStringify_fallback_prim]
    exact ⟨_, _, rfl⟩

/-- C5 counterexample: a call at or above the configured minimum that
produces no event at all: with minimum level warn (rank 2), an error-level
call whose structuredData overrides ts with a BigInt raises out of emit
(the fallback bug of C2), so it produces zero events where the claim
asserts exactly one. -/
theorem c5_counterexample :
    ¬ Level.error.rank < (2 : Nat) ∧
    emit ⟨2, "console", false⟩ none ⟨[]⟩ "T" Level.error "x" [("ts", JVal.jbig 7)] =
      Except.error () :=
  ⟨by decide, rfl⟩

/-- C5 amended: level gating in the first emit variant: a call strictly
below the configured minimum level is a complete no-op, and a call at or
above it produces exactly one event provided the entry ts field stays a
serializable primitive — in particular whenever the caller data does not
override ts (the excluded inputs are exactly those of the C2 fallback
bug, on which the call raises instead); in particular with minimum level
warn (rank 2), debug and info calls produce nothing while warn and error
calls each produce an event. -/
theorem c5_level_gating (cfg : Config) (ctxOpt : Option Store) (h : Heap) (ts : String)
    (lvl : Level) (message : String) (data : List (String × JVal))
    (hts : dataLast "ts" data = none) :
    (emit cfg ctxOpt h ts lvl message data = Except.ok none ↔
      lvl.rank < cfg.currentLevel) ∧
    (¬ lvl.rank < cfg.currentLevel →
      ∃ out ws, emit cfg ctxOpt h ts lvl message data = Except.ok (some (out, ws))) ∧
    (cfg.currentLevel = 2 →
      emit cfg ctxOpt h ts Level.debug message data = Except.ok none ∧
      emit cfg ctxOpt h ts Level.info message data = Except.ok none ∧
      (∃ out ws, emit cfg ctxOpt h ts Level.warn message data =
        Except.ok (some (out, ws))) ∧
      (∃ out ws, emit cfg ctxOpt h ts Level.error message data =
        Except.ok (some (out, ws)))) := by
  have hgated : ∀ (l : Level), l.rank < cfg.currentLevel →
      emit cfg ctxOpt h ts l message data = Except.ok none := by
    intro l hl
    unfold emit
    rw [if_pos hl]
  refine ⟨⟨?_, hgated lvl⟩, emit_not_gated cfg ctxOpt h ts lvl message data hts, ?_⟩
  · intro hnone
    by_contra hgate
    obtain ⟨out, ws, hok⟩ := emit_not_gated cfg ctxOpt h ts lvl message data hts hgate
    rw [hok] at hnone
    exact Option.noConfusion (Except.ok.inj hnone)
  · intro h2
    refine ⟨hgated Level.debug (by rw [h2]; decide),
      hgated Level.info (by rw [h2]; decide),
      emit_not_gated cfg ctxOpt h ts Level.warn message data hts (by rw [h2]; decide),
      emit_not_gated cfg ctxOpt h ts Level.error message data hts (by rw [h2]; decide)⟩

/-- C5 witness: the gating iff and the warn-minimum instances at a
concrete configuration and call. -/
theorem c5_witness :
    (emit ⟨2, "console", false⟩ none ⟨[]⟩ "T" Level.info "hello" [] = Except.ok none ↔
      Level.info.rank < 2) ∧
    (¬ Level.info.rank < 2 →
      ∃ out ws, emit ⟨2, "console", false⟩ none ⟨[]⟩ "T" Level.info "hello" [] =
        Except.ok (some (out, ws))) ∧
    ((2 : Nat) = 2 →
      emit ⟨2, "console", false⟩ none ⟨[]⟩ "T" Level.debug "hello" [] = Except.ok none ∧
      emit ⟨2, "console", false⟩ none ⟨[]⟩ "T" Level.info "hello" [] = Except.ok none ∧
      (∃ out ws, emit ⟨2, "console", false⟩ none ⟨[]⟩ "T" Level.warn "hello" [] =
        Except.ok (some (out, ws))) ∧
      (∃ out ws, emit ⟨2, "console", false⟩ none ⟨[]⟩ "T" Level.error "hello" [] =
        Except.ok (some (out, ws)))) :=
  c5_level_gating ⟨2, "console", false⟩ none ⟨[]⟩ "T" Level.info "hello" [] rfl

/-- C7: capture and restore round-trip: captureContext of an active store
is that store (shallow copy), and a log emitted inside
runWithCapturedContext of the captured snapshot assembles its event from
exactly the captured store, so the event reports the original userId and
txId (caller data not overriding those keys). -/
theorem c7_capture_restore (st : Store) (ts : String) (lvl : Level) (message : String)
    (data : List (String × JVal)) (hu : dataLast "userId" data = none)
    (ht : dataLast "txId" data = none) :
    captureContext (some st) = st ∧
    runWithCapturedContext (captureContext (some st))
      (fun ctxOpt => emittedEntry (ctxOpt.getD emptyCtx) ts lvl message data) =
      emittedEntry st ts lvl message data ∧
    lookupField (runWithCapturedContext (captureContext (some st))
      (fun ctxOpt => emittedEntry (ctxOpt.getD emptyCtx) ts lvl message data)) "userId" =
      some st.userId ∧
    lookupField (runWithCapturedContext (captureContext (some st))
      (fun ctxOpt => emittedEntry (ctxOpt.getD emptyCtx) ts lvl message data)) "txId" =
      some st.txId := by
  refine ⟨rfl, rfl, ?_, ?_⟩
  · exact lookupField_emittedEntry_userId st ts lvl message data hu
  · exact lookupField_emittedEntry_txId st ts lvl message data ht

/-- C7 witness: the round-trip at a concrete store. -/
theorem c7_witness :
    captureContext (some ⟨JVal.jstr "alex_123", JVal.jstr "abc-789", []⟩) =
      ⟨JVal.jstr "alex_123", JVal.jstr "abc-789", []⟩ ∧
    lookupField (runWithCapturedContext
      (captureContext (some ⟨JVal.jstr "alex_123", JVal.jstr "abc-789", []⟩))
      (fun ctxOpt => emittedEntry (ctxOpt.getD emptyCtx) "T" Level.info "done" []))
      "userId" = some (JVal.jstr "alex_123") ∧
    lookupField (runWithCapturedContext
      (captureContext (some ⟨JVal.jstr "alex_123", JVal.jstr "abc-789", []⟩))
      (fun ctxOpt => emittedEntry (ctxOpt.getD emptyCtx) "T" Level.info "done" []))
      "txId" = some (JVal.jstr "abc-789") := by
  have hc := c7_capture_restore ⟨JVal.jstr "alex_123", JVal.jstr "abc-789", []⟩
    "T" Level.info "done" [] rfl rfl
  exact ⟨hc.1, hc.2.2.1, hc.2.2.2⟩

/-- C8: withContext builds the store with identity and correlation taken
verbatim from the seed when present (non-nullish), substitutes the fresh
generated identifier exactly when the seed correlation is absent or null,
and returns the result of fn run with that store active. Uniqueness of
the generated identifier is the randomUUID contract of the platform; the
generated value enters the model as the freshId input and is used
verbatim. -/
theorem c8_withContext_seed (seed : Seed) (freshId : String) {α : Type}
    (fn : Option Store → α) :
    (withContextStore seed freshId).userId = nullish seed.userId ∧
    (∀ v, seed.userId = some v → (withContextStore seed freshId).userId = v) ∧
    (∀ v, seed.txId = some v → v ≠ JVal.jnull →
      (withContextStore seed freshId).txId = v) ∧
    ((seed.txId = none ∨ seed.txId = some JVal.jnull) →
      (withContextStore seed freshId).txId = JVal.jstr freshId) ∧
    (withContextStore seed freshId).custom = seed.custom.getD [] ∧
    withContext seed freshId fn = fn (some (withContextStore seed freshId)) := by
  refine ⟨rfl, ?_, ?_, ?_, rfl, rfl⟩
  · intro v hv
    simp [withContextStore, nullish, hv]
  · intro v hv hnv
    have hn : nullish seed.txId = v := by rw [hv]; rfl
    show (match nullish seed.txId with
      | JVal.jnull => JVal.jstr freshId
      | w => w) = v
    rw [hn]
    cases v with
    | jnull => exact absurd rfl hnv
    | jbool b => rfl
    | jnum n => rfl
    | jstr s => rfl
    | jbig n => rfl
    | ref a => rfl
  · rintro (hv | hv) <;> simp [withContextStore, nullish, hv]

/-- C8 witness: the seed fields are used verbatim when present, the fresh
identifier is substituted when the correlation is omitted, and the run
returns the result of fn. -/
theorem c8_witness :
    (withContextStore ⟨some (JVal.jstr "system"), some (JVal.jstr "batch-job-123"), none⟩
      "u-9").txId = JVal.jstr "batch-job-123" ∧
    (withContextStore ⟨some (JVal.jstr "system"), none, none⟩ "u-9").txId =
      JVal.jstr "u-9" ∧
    (withContextStore ⟨some (JVal.jstr "system"), some (JVal.jstr "batch-job-123"), none⟩
      "u-9").userId = JVal.jstr "system" ∧
    withContext ⟨some (JVal.jstr "system"), some (JVal.jstr "batch-job-123"), none⟩ "u-9"
        (fun o => o) =
      some (withContextStore
        ⟨some (JVal.jstr "system"), some (JVal.jstr "batch-job-123"), none⟩ "u-9") := by
  refine ⟨?_, ?_, ?_, ?_⟩
  · exact (c8_withContext_seed _ "u-9" (fun o => o)).2.2.1 _ rfl (by decide)
  · exact (c8_withContext_seed _ "u-9" (fun o => o)).2.2.2.1 (Or.inl rfl)
  · exact (c8_withContext_seed _ "u-9" (fun o => o)).2.1 _ rfl
  · exact (c8_withContext_seed _ "u-9" (fun o => o)).2.2.2.2.2

/-- Lookup of the message key in the draft entry: always the call
message, assigned after the data spread. -/
theorem lookupField_entryFields_msg (ctx : Store) (ts : String) (lvl : Level)
    (message : String) (data : List (String × JVal)) :
    lookupField (entryFields ctx ts lvl message data) "msg" = some (JVal.jstr message) := by
  unfold entryFields
  exact lookupField_objInsert_self _ _ _

/-- Lookup of any data-assigned non-msg key in the draft entry. -/
theorem lookupField_entryFields_of_dataLast (ctx : Store) (ts : String) (lvl : Level)
    (message : String) (data : List (String × JVal)) (k : String) (v : JVal)
    (hkm : k ≠ "msg") (hd : dataLast k data = some v) :
    lookupField (entryFields ctx ts lvl message data) k = some v := by
  unfold entryFields
  rw [lookupField_objInsert_other _ _ _ _ (fun he => hkm he.symm),
    lookupField_objSpread_of_some _ _ _ _ hd]

/-- The Object.assign merge of the second variant leaves a key untouched
exactly when the custom map does not contain it. -/
theorem lookupField_applyCustomV2_of_none (entry custom : List (String × JVal))
    (k : String) (hnc : dataLast k custom = none) :
    lookupField (applyCustomV2 entry custom) k = lookupField entry k := by
  induction custom generalizing entry with
  | nil => rfl
  | cons kv rest ih =>
    obtain ⟨k0, v0⟩ := kv
    have hrest : dataLast k rest = none := by
      cases hdl : dataLast k rest with
      | none => rfl
      | some w => simp [dataLast, hdl] at hnc
    have hk0 : k0 ≠ k := by
      intro he
      simp [dataLast, hrest, he] at hnc
    have hstep : applyCustomV2 entry ((k0, v0) :: rest) =
        applyCustomV2 (objInsert entry k0 v0) rest := rfl
    rw [hstep, ih _ hrest, lookupField_objInsert_other _ _ _ _ hk0]

/-- C9 counterexample: in the second emit variant the claim fails:
Object.assign merges custom context after the data spread, so with an
active context whose custom map (populated via addContext) shares the
key ts with the structuredData, the emitted value of ts is the custom
value, not the structuredData value the claim asserts. -/
theorem c9_counterexample :
    addContext (some ⟨JVal.jstr "u", JVal.jstr "t", []⟩) [("ts", JVal.jstr "fromCustom")] =
      some ⟨JVal.jstr "u", JVal.jstr "t", [("ts", JVal.jstr "fromCustom")]⟩ ∧
    dataLast "ts" [("ts", JVal.jstr "fromData")] = some (JVal.jstr "fromData") ∧
    lookupField (emittedEntryV2
      ⟨JVal.jstr "u", JVal.jstr "t", [("ts", JVal.jstr "fromCustom")]⟩
      "T" Level.info "m" [("ts", JVal.jstr "fromData")]) "ts" =
      some (JVal.jstr "fromCustom") ∧
    lookupField (emittedEntryV2
      ⟨JVal.jstr "u", JVal.jstr "t", [("ts", JVal.jstr "fromCustom")]⟩
      "T" Level.info "m" [("ts", JVal.jstr "fromData")]) "ts" ≠
      some (JVal.jstr "fromData") ∧
    emitV2 ⟨1, "console", none⟩
      (some ⟨JVal.jstr "u", JVal.jstr "t", [("ts", JVal.jstr "fromCustom")]⟩)
      ⟨[]⟩ "T" Level.info "m" [("ts", JVal.jstr "fromData")] =
      Except.ok (some
        ("\x7b\"ts\":\"fromCustom\",\"level\":\"info\",\"userId\":\"u\",\"txId\":\"t\",\"msg\":\"m\"\x7d",
         [(Sink.cLog,
           "\x7b\"ts\":\"fromCustom\",\"level\":\"info\",\"userId\":\"u\",\"txId\":\"t\",\"msg\":\"m\"\x7d")])) := by
  refine ⟨rfl, rfl, rfl, ?_, rfl⟩
  decide

/-- C9 amended: caller-supplied structuredData is not subject to the
reserved filter. In the first variant a data key among ts, level,
userId, txId overrides the authoritative entry value (last write in the
spread wins) and survives the reserved-filtered custom merge untouched,
while msg cannot be overridden via structuredData because emit assigns
msg after the data spread. In the second variant the same holds only in
the absence of a colliding custom key: its Object.assign merge runs
after the data spread, so a colliding custom key wins over the
structuredData value (see the counterexample). -/
theorem c9_data_overrides (st : Store) (ts : String) (lvl : Level) (message : String)
    (data : List (String × JVal)) (k : String) (v : JVal)
    (hk : k = "ts" ∨ k = "level" ∨ k = "userId" ∨ k = "txId")
    (hv : dataLast k data = some v) :
    lookupField (emittedEntry st ts lvl message data) k = some v ∧
    lookupField (emittedEntry st ts lvl message data) "msg" =
      some (JVal.jstr message) ∧
    (dataLast k st.custom = none →
      lookupField (emittedEntryV2 st ts lvl message data) k = some v) ∧
    (dataLast "msg" st.custom = none →
      lookupField (emittedEntryV2 st ts lvl message data) "msg" =
        some (JVal.jstr message)) := by
  have hkm : k ≠ "msg" := by
    rcases hk with hk | hk | hk | hk <;> subst hk <;> decide
  have hkr : k ∈ RESERVED_FIELDS := by
    rcases hk with hk | hk | hk | hk <;> subst hk <;> decide
  refine ⟨lookupField_emittedEntry_reserved_of_dataLast st ts lvl message data k v
    hkr hkm hv, lookupField_emittedEntry_msg _ _ _ _ _, ?_, ?_⟩
  · intro hnc
    unfold emittedEntryV2
    rw [lookupField_applyCustomV2_of_none _ _ _ hnc]
    exact lookupField_entryFields_of_dataLast st ts lvl message data k v hkm hv
  · intro hnm
    unfold emittedEntryV2
    rw [lookupField_applyCustomV2_of_none _ _ _ hnm]
    exact lookupField_entryFields_msg st ts lvl message data

/-- C9 witness: data assigning ts, userId and msg against an active
context with an empty custom map; both variants of the emitted entry take
the data values for ts and userId but keep the call message for msg. -/
theorem c9_witness :
    lookupField (emittedEntry ⟨JVal.jstr "u1", JVal.jstr "t1", []⟩ "T" Level.info "real"
      [("ts", JVal.jstr "1999"), ("userId", JVal.jstr "fake"), ("msg", JVal.jstr "no")])
      "ts" = some (JVal.jstr "1999") ∧
    lookupField (emittedEntry ⟨JVal.jstr "u1", JVal.jstr "t1", []⟩ "T" Level.info "real"
      [("ts", JVal.jstr "1999"), ("userId", JVal.jstr "fake"), ("msg", JVal.jstr "no")])
      "userId" = some (JVal.jstr "fake") ∧
    lookupField (emittedEntry ⟨JVal.jstr "u1", JVal.jstr "t1", []⟩ "T" Level.info "real"
      [("ts", JVal.jstr "1999"), ("userId", JVal.jstr "fake"), ("msg", JVal.jstr "no")])
      "msg" = some (JVal.jstr "real") ∧
    lookupField (emittedEntryV2 ⟨JVal.jstr "u1", JVal.jstr "t1", []⟩ "T" Level.info "real"
      [("ts", JVal.jstr "1999"), ("userId", JVal.jstr "fake"), ("msg", JVal.jstr "no")])
      "ts" = some (JVal.jstr "1999") ∧
    lookupField (emittedEntryV2 ⟨JVal.jstr "u1", JVal.jstr "t1", []⟩ "T" Level.info "real"
      [("ts", JVal.jstr "1999"), ("userId", JVal.jstr "fake"), ("msg", JVal.jstr "no")])
      "msg" = some (JVal.jstr "real") := by
  refine ⟨?_, ?_, ?_, ?_, ?_⟩
  · exact (c9_data_overrides ⟨JVal.jstr "u1", JVal.jstr "t1", []⟩ "T" Level.info "real"
      _ "ts" (JVal.jstr "1999") (Or.inl rfl) (by decide)).1
  · exact (c9_data_overrides ⟨JVal.jstr "u1", JVal.jstr "t1", []⟩ "T" Level.info "real"
      _ "userId" (JVal.jstr "fake") (Or.inr (Or.inr (Or.inl rfl))) (by decide)).1
  · exact (c9_data_overrides ⟨JVal.jstr "u1", JVal.jstr "t1", []⟩ "T" Level.info "real"
      _ "ts" (JVal.jstr "1999") (Or.inl rfl) (by decide)).2.1
  · exact (c9_data_overrides ⟨JVal.jstr "u1", JVal.jstr "t1", []⟩ "T" Level.info "real"
      _ "ts" (JVal.jstr "1999") (Or.inl rfl) (by decide)).2.2.1 rfl
  · exact (c9_data_overrides ⟨JVal.jstr "u1", JVal.jstr "t1", []⟩ "T" Level.info "real"
      _ "ts" (JVal.jstr "1999") (Or.inl rfl) (by decide)).2.2.2 rfl

/-- The one-object heap whose object references itself: the canonical
cyclic structured datum. -/
def cycHeap : Heap := ⟨[[("self", JVal.ref 0)]]⟩

/-- C3 counterexample: two concrete inputs with a reference cycle in the
structured data on which the claim fails. The second emit variant
serializes with a bare JSON.stringify and raises on the cycle (the claim
says emit does not raise); and in the first variant a call whose cyclic
data additionally contains a BigInt makes safeStringify fail, so the
emitted line is the minimal fallback, which is not the entry with a
[Circular] marker (the claim says the emitted line contains the marker in
place of the cyclic reference). -/
theorem c3_counterexample :
    emitV2 ⟨1, "console", none⟩ none cycHeap "T" Level.info "m" [("c", JVal.ref 0)] =
      Except.error () ∧
    emit ⟨1, "console", false⟩ none cycHeap "T" Level.info "m"
        [("c", JVal.ref 0), ("b", JVal.jbig 1)] =
      Except.ok (some
        ("\x7b\"ts\":\"T\",\"level\":\"error\",\"msg\":\"Failed to serialize log entry\",\"originalMsg\":\"m\"\x7d",
         [(Sink.cLog,
           "\x7b\"ts\":\"T\",\"level\":\"error\",\"msg\":\"Failed to serialize log entry\",\"originalMsg\":\"m\"\x7d")])) ∧
    hasMarker
      "\x7b\"ts\":\"T\",\"level\":\"error\",\"msg\":\"Failed to serialize log entry\",\"originalMsg\":\"m\"\x7d"
      = false :=
  ⟨rfl, rfl, rfl⟩

/-- C3 amended: in the first (hardened) emit variant, for every call that
passes the level gate and whose assembled event contains a reference
cycle but no unsupported value kind (no BigInt), emit does not raise and
produces exactly the safeStringify line of the entry, in which the
serializer has replaced a previously seen object by the [Circular]
marker (hit flag true). The second variant raises on such input, and if
the data also contains an unsupported kind the first variant emits the
fallback line instead (see the counterexample). -/
theorem c3_amended_cycle_marker (cfg : Config) (ctxOpt : Option Store) (h : Heap)
    (ts : String) (lvl : Level) (message : String) (data : List (String × JVal))
    (hgate : ¬ lvl.rank < cfg.currentLevel)
    (hH : noBigHeap h = true)
    (hE : noBigList (emittedEntry (ctxOpt.getD emptyCtx) ts lvl message data) = true)
    (hcyc : HasCycleObj h (emittedEntry (ctxOpt.getD emptyCtx) ts lvl message data)) :
    ∃ out ws,
      emit cfg ctxOpt h ts lvl message data = Except.ok (some (out, ws)) ∧
      safeStringify h (emittedEntry (ctxOpt.getD emptyCtx) ts lvl message data) =
        some (out, true) := by
  obtain ⟨out, hss⟩ := safeStringify_hit_of_cycle h _ hH hE hcyc
  refine ⟨out, dispatch cfg lvl out, ?_, hss⟩
  unfold emit
  rw [if_neg hgate]
  simp only [hss]

/-- C3 witness: the amended claim discharged at the concrete
self-referencing datum, together with the concrete emitted line showing
the marker. -/
theorem c3_witness :
    (∃ out ws,
      emit ⟨1, "console", false⟩ none cycHeap "T" Level.info "m" [("c", JVal.ref 0)] =
        Except.ok (some (out, ws)) ∧
      safeStringify cycHeap (emittedEntry emptyCtx "T" Level.info "m" [("c", JVal.ref 0)]) =
        some (out, true)) ∧
    emit ⟨1, "console", false⟩ none cycHeap "T" Level.info "m" [("c", JVal.ref 0)] =
      Except.ok (some
        ("\x7b\"ts\":\"T\",\"level\":\"info\",\"userId\":null,\"txId\":null,\"c\":\x7b\"self\":\"[Circular]\"\x7d,\"msg\":\"m\"\x7d",
         [(Sink.cLog,
           "\x7b\"ts\":\"T\",\"level\":\"info\",\"userId\":null,\"txId\":null,\"c\":\x7b\"self\":\"[Circular]\"\x7d,\"msg\":\"m\"\x7d")])) ∧
    hasMarker
      "\x7b\"ts\":\"T\",\"level\":\"info\",\"userId\":null,\"txId\":null,\"c\":\x7b\"self\":\"[Circular]\"\x7d,\"msg\":\"m\"\x7d"
      = true := by
  refine ⟨?_, rfl, rfl⟩
  exact c3_amended_cycle_marker ⟨1, "console", false⟩ none cycHeap "T" Level.info "m"
    [("c", JVal.ref 0)] (by decide) (by decide) (by decide)
    ⟨("c", JVal.ref 0), by decide, 0, rfl,
      0, Steps.refl 0, 0, by decide, Steps.refl 0⟩

/-- C4: chain isolation under arbitrary interleaving. Modelled from the
spec (section 4.1, Context Store): the AsyncLocalStorage of node is a
platform primitive, embedded here as the cooperative scheduler in which
every scheduled continuation inherits the store of its scheduling task.
For chains 0 and 1 established concurrently with stores A and B, every
log event recorded by chain 0 — including events from forked
continuations, at any interleaving — observes exactly store A, and never
B when the records differ. -/
theorem c4_chain_isolation (stA stB : Store) (actsA actsB : List Act)
    (choices : List Nat) :
    ∀ e ∈ (runSched (initSched stA stB actsA actsB) choices).events,
      (e.label = 0 → e.store = some stA) ∧
      (e.label = 1 → e.store = some stB) ∧
      (stA ≠ stB → e.label = 0 → e.store ≠ some stB) := by
  intro e he
  have hinit : labelOk (fun l => if l = 0 then some stA else some stB)
      (initSched stA stB actsA actsB) := by
    constructor
    · intro t ht
      rcases List.mem_cons.mp ht with h1 | h1
      · rw [h1]
        rfl
      · rw [List.mem_singleton.mp h1]
        rfl
    · intro e2 he2
      exact absurd he2 (List.not_mem_nil e2)
  have hok := runSched_labelOk (fun l => if l = 0 then some stA else some stB)
    (initSched stA stB actsA actsB) choices hinit
  have hstore := hok.2 e he
  refine ⟨fun h0 => ?_, fun h1 => ?_, fun hne h0 heq => ?_⟩
  · rw [hstore, h0]
    rfl
  · rw [hstore, h1]
    rfl
  · rw [hstore, h0] at heq
    simp only [if_pos rfl] at heq
    exact hne (Option.some.inj heq)

/-- The concrete chains of the C4 witness: chain 0 forks a continuation
that logs later; chain 1 logs in between. -/
def stAw : Store := ⟨JVal.jstr "alex", JVal.jstr "tx-a", []⟩

/-- Store of the second witness chain. -/
def stBw : Store := ⟨JVal.jstr "bob", JVal.jstr "tx-b", []⟩

/-- Actions of witness chain 0: schedule a continuation, then log. -/
def actsAw : List Act := [Act.fork [Act.log Level.info "deep-a"], Act.log Level.info "a1"]

/-- Actions of witness chain 1. -/
def actsBw : List Act := [Act.log Level.info "b1"]

/-- C4 witness: a concrete interleaving in which chain 1 logs between the
fork and the forked log of chain 0; the event logged deep inside the
forked continuation of chain 0 carries store A. -/
theorem c4_witness :
    (⟨0, some stAw, Level.info, "deep-a"⟩ : SchedEvent) ∈
      (runSched (initSched stAw stBw actsAw actsBw) [0, 1, 2, 0]).events ∧
    (⟨0, some stAw, Level.info, "deep-a"⟩ : SchedEvent).store = some stAw := by
  constructor
  · decide
  · exact (c4_chain_isolation stAw stBw actsAw actsBw [0, 1, 2, 0] _ (by decide)).1 rfl

end Tracepack
